import Mathlib

/-!
Verification development for the Pet-Care role-lifecycle subsystem.

The definitions below are a shallow embedding of the TypeScript source:
  * `packages/shared/src/roles.ts` — role and status enumerations;
  * `apps/server/src/controllers/auth.ts` — `register`, `requestRoleUpgrade`;
  * `apps/server/src/controllers/admin.ts` — `approveRoleRequest`, `rejectRoleRequest`;
  * `apps/server/src/middleware/auth.middleware.ts` — `attachDbUser`,
    `requireApprovedStatus`, `requireRole` (composed as `authorize`);
  * `apps/server/src/services/user.ts` — `syncFirebaseClaims`, `createInitialAdmin`;
  * `scripts/create-admin.ts` — `createOrUpdateMongoUser`.

MongoDB is modelled as explicit lists of records inside `AppState`; Mongoose
`save` / `findByIdAndUpdate` calls become `updateWhere` on those lists keyed by
the (unique) ids.  The Firebase claims store is a list keyed by firebase uid.
External calls that can fail (`setCustomUserClaims`) take an explicit `pushOk`
flag; `pushOk = false` means the provider call throws at that point.
-/

namespace PetCare

/-- Role enumeration from `packages/shared/src/roles.ts` (`ROLES`):
`pet-owner`, `vet`, `admin`. -/
inductive Role where
  | owner
  | vet
  | admin
deriving DecidableEq, Repr

/-- Status enumeration from `packages/shared/src/roles.ts` (`ROLE_STATUSES`):
`approved`, `pending`, `rejected`. -/
inductive RoleStatus where
  | approved
  | pending
  | rejected
deriving DecidableEq, Repr

/-- User document (`apps/server/src/models/User.ts`).  `id` stands for the
Mongo `_id`, `firebaseUid` is the unique identity-provider subject. -/
structure User where
  id : Nat
  firebaseUid : String
  email : String
  role : Role
  roleStatus : RoleStatus
  requestedRole : Option Role
deriving DecidableEq, Repr

/-- RoleRequest document (`apps/server/src/models/RoleRequest.ts`). -/
structure RoleRequest where
  id : Nat
  userId : Nat
  requestedRole : Role
  status : RoleStatus
  reviewedBy : Option Nat
  reviewedAt : Option Nat
  reason : Option String
deriving DecidableEq, Repr

/-- VetProfile document (`apps/server/src/models/vet.ts`), restricted to the
fields touched by role approval. -/
structure VetProfile where
  userId : Nat
  licenseNumber : String
  licenseCountry : String
  verified : Bool
  verifiedAt : Option Nat
  verificationSource : String
deriving DecidableEq, Repr

/-- Custom-claims payload written by `admin.auth().setCustomUserClaims`. -/
structure Claims where
  role : Role
  roleStatus : RoleStatus
deriving DecidableEq, Repr

/-- Whole-system state: the three Mongo collections plus the Firebase
claims store (keyed by firebase uid). -/
structure AppState where
  users : List User
  roleRequests : List RoleRequest
  vetProfiles : List VetProfile
  claims : List (String × Claims)
deriving DecidableEq, Repr

/-- Request-context user attached by `attachDbUser`
(`req.dbUser : {_id, role, roleStatus, requestedRole}`). -/
structure DbUser where
  id : Nat
  role : Role
  roleStatus : RoleStatus
  requestedRole : Option Role
deriving DecidableEq, Repr

/-- Decoded Firebase ID token (`req.user`): the subject uid, email, and the
role/roleStatus custom-claims payload embedded in the verified credential. -/
structure DecodedToken where
  uid : String
  email : String
  claimRole : Option Role
  claimRoleStatus : Option RoleStatus
deriving DecidableEq, Repr

/-- Update every element matching `p` with `f` (Mongoose `doc.save()` /
`findByIdAndUpdate` against a collection whose ids are unique). -/
def updateWhere (p : α → Bool) (f : α → α) : List α → List α
  | [] => []
  | x :: xs => (if p x then f x else x) :: updateWhere p f xs

/-- Look up a user by Mongo `_id` (`User.findById`). -/
def findUserById (users : List User) (uid : Nat) : Option User :=
  users.find? (fun u => u.id == uid)

/-- Look up a user by firebase uid (`User.findOne({firebaseUid})`). -/
def findUserByUid (users : List User) (fuid : String) : Option User :=
  users.find? (fun u => u.firebaseUid == fuid)

/-- Look up a role request by `_id` (`RoleRequest.findById`). -/
def findReqById (reqs : List RoleRequest) (rid : Nat) : Option RoleRequest :=
  reqs.find? (fun r => r.id == rid)

/-- Look up a vet profile by owning user id (`VetProfile.findOne({userId})`). -/
def findVetByUserId (ps : List VetProfile) (uid : Nat) : Option VetProfile :=
  ps.find? (fun p => p.userId == uid)

/-- Write the custom-claims payload for a subject: update in place if the
subject already has claims, else add an entry (`setCustomUserClaims`). -/
def setClaim : List (String × Claims) → String → Claims → List (String × Claims)
  | [], uid, c => [(uid, c)]
  | (k, v) :: rest, uid, c =>
    if k == uid then (uid, c) :: rest else (k, v) :: setClaim rest uid c

/-- Upsert semantics of `VetProfile.findOneAndUpdate({userId}, fields,
{upsert: true})`: `$set` the given fields on the existing document when one
matches, else insert `fresh`. -/
def upsertVetProfile (ps : List VetProfile) (uid : Nat)
    (f : VetProfile → VetProfile) (fresh : VetProfile) : List VetProfile :=
  if (ps.find? (fun p => p.userId == uid)).isSome
  then updateWhere (fun p => p.userId == uid) f ps
  else ps ++ [fresh]

/-! Regex `/License: (.+), Country: (.+)/` from `admin.ts` line 65, embedded
with JavaScript semantics: leftmost match start, greedy capture groups, and
`.` matching any character except a newline. -/

/-- Character class of `.` in a JavaScript regex without the `s` flag. -/
def isDotChar (c : Char) : Bool := c != '\n'

/-- Longest prefix of non-newline characters (a maximal greedy `.+` run,
modulo nonemptiness which callers check). -/
def takeDots : List Char → List Char
  | [] => []
  | c :: cs => if isDotChar c then c :: takeDots cs else []

/-- Check that `pat` is an initial segment of `s`. -/
def listStartsWith : List Char → List Char → Bool
  | [], _ => true
  | _ :: _, [] => false
  | p :: ps, c :: cs => p == c && listStartsWith ps cs

/-- Literal `", Country: "` between the two capture groups. -/
def sepChars : List Char := (", Country: ").toList

/-- Literal `"License: "` opening the pattern. -/
def licChars : List Char := ("License: ").toList

/-- Try to finish the match with the first group fixed to `g1` and the rest of
the input `t`: the separator literal must follow, and the second greedy group
must be nonempty. -/
def finishMatch (g1 : List Char) (t : List Char) : Option (String × String) :=
  if g1.isEmpty then none
  else if listStartsWith sepChars t then
    let g2 := takeDots (t.drop sepChars.length)
    if g2.isEmpty then none else some (String.mk g1, String.mk g2)
  else none

/-- Greedy matching of `(.+), Country: (.+)` against `t`, first group so far
`g1`: extend the first group as far as possible, backtracking to the latest
position where the separator and a nonempty second group fit. -/
def matchGroups : List Char → List Char → Option (String × String)
  | g1, [] => finishMatch g1 []
  | g1, c :: rest =>
    match (if isDotChar c then matchGroups (g1 ++ [c]) rest else none) with
    | some r => some r
    | none => finishMatch g1 (c :: rest)

/-- Leftmost application of the whole pattern: at each start position try
`"License: "` followed by the groups, else slide one character right. -/
def licSearch : List Char → Option (String × String)
  | [] => none
  | c :: tail =>
    match (if listStartsWith licChars (c :: tail)
           then matchGroups [] ((c :: tail).drop licChars.length)
           else none) with
    | some r => some r
    | none => licSearch tail

/-- Evaluate `reason?.match(/License: (.+), Country: (.+)/)`, returning the two
capture groups on success. -/
def parseLicense : Option String → Option (String × String)
  | none => none
  | some s => licSearch s.toList

/-- Whitespace trim on both ends (JavaScript `String.prototype.trim`). -/
def trimChars (l : List Char) : List Char :=
  ((l.dropWhile Char.isWhitespace).reverse.dropWhile Char.isWhitespace).reverse

/-- String form of `trimChars`. -/
def strTrim (s : String) : String := String.mk (trimChars s.toList)

/-- JavaScript falsiness of an optional string (`!x`): missing or empty. -/
def falsyStr : Option String → Bool
  | none => true
  | some s => s == ""

/-! Controller: `approveRoleRequest` (`apps/server/src/controllers/admin.ts`). -/

/-- HTTP outcomes of `approveRoleRequest`: 403 admin gate, 404 missing
request, 400 already processed, 404 missing user, 200 success payload, and
the outer-catch 500 response. -/
inductive ApproveResult where
  | adminRequired
  | requestNotFound
  | alreadyProcessed
  | userNotFound
  | approved (userId : Nat) (newRole : Role)
  | serverError
deriving DecidableEq, Repr

/-- Verified vet profile written when the reason text matches the license
regex (`admin.ts` lines 70–81). -/
def matchedVetProfile (uid : Nat) (ln lc : String) (now : Nat) : VetProfile :=
  { userId := uid, licenseNumber := strTrim ln, licenseCountry := strTrim lc,
    verified := true, verifiedAt := some now,
    verificationSource := "admin_approval" }

/-- Field update applied to an existing profile in the no-license branch
(`admin.ts` lines 90–100): `verifiedAt` is absent from the update object and
is therefore kept. -/
def basicVetUpdate (p : VetProfile) : VetProfile :=
  { p with
    licenseNumber := "PENDING_VERIFICATION"
    licenseCountry := "UNKNOWN"
    verified := false
    verificationSource := "admin_approval_pending_license" }

/-- Placeholder profile inserted in the no-license branch when no profile
exists yet. -/
def basicVetProfile (uid : Nat) : VetProfile :=
  { userId := uid, licenseNumber := "PENDING_VERIFICATION",
    licenseCountry := "UNKNOWN", verified := false, verifiedAt := none,
    verificationSource := "admin_approval_pending_license" }

/-- Mutation of the target user on approval (`admin.ts` lines 49–52). -/
def approveUserUpdate (rr : RoleRequest) (u : User) : User :=
  { u with
    role := rr.requestedRole
    roleStatus := RoleStatus.approved
    requestedRole := none }

/-- Mutation of the role request on approval (`admin.ts` lines 55–58). -/
def approveReqUpdate (a : DbUser) (now : Nat) (r : RoleRequest) : RoleRequest :=
  { r with
    status := RoleStatus.approved
    reviewedBy := some a.id
    reviewedAt := some now }

/-- Vet-profile side effect of approval (`admin.ts` lines 61–106): only for a
vet request, upserting a verified profile when the reason matches the license
regex and a placeholder profile otherwise. -/
def approveVetProfiles (ps : List VetProfile) (rr : RoleRequest) (now : Nat) :
    List VetProfile :=
  if rr.requestedRole = Role.vet then
    match parseLicense rr.reason with
    | some (ln, lc) =>
      upsertVetProfile ps rr.userId
        (fun _ => matchedVetProfile rr.userId ln lc now)
        (matchedVetProfile rr.userId ln lc now)
    | none => upsertVetProfile ps rr.userId basicVetUpdate (basicVetProfile rr.userId)
  else ps

/-- Record-store state after the Mongo writes of a successful approval (the
part that persists even when the later claims push fails). -/
def approvedState (st : AppState) (a : DbUser) (rr : RoleRequest)
    (requestId now : Nat) : AppState :=
  { st with
    users := updateWhere (fun u => u.id == rr.userId) (approveUserUpdate rr) st.users
    roleRequests := updateWhere (fun r => r.id == requestId)
      (approveReqUpdate a now) st.roleRequests
    vetProfiles := approveVetProfiles st.vetProfiles rr now }

/-- Embedding of `approveRoleRequest`.  `adminUser` is `req.dbUser`, `now` the
current time, and `pushOk` tells whether `setCustomUserClaims` succeeds; when
it throws, the Mongo writes already performed persist and the outer catch
answers 500. -/
def approveRoleRequest (st : AppState) (adminUser : Option DbUser)
    (requestId : Nat) (now : Nat) (pushOk : Bool) : ApproveResult × AppState :=
  match adminUser with
  | none => (ApproveResult.adminRequired, st)
  | some a =>
    if a.role ≠ Role.admin then (ApproveResult.adminRequired, st)
    else
      match findReqById st.roleRequests requestId with
      | none => (ApproveResult.requestNotFound, st)
      | some rr =>
        if rr.status ≠ RoleStatus.pending then (ApproveResult.alreadyProcessed, st)
        else
          match findUserById st.users rr.userId with
          | none => (ApproveResult.userNotFound, st)
          | some target =>
            let st1 := approvedState st a rr requestId now
            if pushOk then
              let claims2 := setClaim st1.claims target.firebaseUid
                ⟨rr.requestedRole, RoleStatus.approved⟩
              (ApproveResult.approved rr.userId rr.requestedRole,
               { st1 with claims := claims2 })
            else (ApproveResult.serverError, st1)

/-! Controller: `rejectRoleRequest` (`apps/server/src/controllers/admin.ts`). -/

/-- HTTP outcomes of `rejectRoleRequest`. -/
inductive RejectResult where
  | adminRequired
  | requestNotFound
  | alreadyProcessed
  | userNotFound
  | rejected (userId : Nat)
deriving DecidableEq, Repr

/-- Audit reason stored on rejection: `reason || "Request rejected by admin"`
with JavaScript falsiness (empty string falls back to the default). -/
def effectiveRejectReason (reason : Option String) : String :=
  match reason with
  | some s => if s == "" then "Request rejected by admin" else s
  | none => "Request rejected by admin"

/-- Mutation of the role request on rejection (`admin.ts` lines 164–168). -/
def rejectReqUpdate (a : DbUser) (reason : Option String) (now : Nat)
    (r : RoleRequest) : RoleRequest :=
  { r with
    status := RoleStatus.rejected
    reviewedBy := some a.id
    reviewedAt := some now
    reason := some (effectiveRejectReason reason) }

/-- Mutation of the target user on rejection (`admin.ts` line 171): only
`requestedRole` is cleared. -/
def clearRequested (u : User) : User := { u with requestedRole := none }

/-- Record-store state after a successful rejection: the request is updated
for audit and the target user's `requestedRole` cleared; vet profiles and
claims are untouched. -/
def rejectedState (st : AppState) (a : DbUser) (rr : RoleRequest)
    (reason : Option String) (requestId now : Nat) : AppState :=
  { st with
    users := updateWhere (fun u => u.id == rr.userId) clearRequested st.users
    roleRequests := updateWhere (fun r => r.id == requestId)
      (rejectReqUpdate a reason now) st.roleRequests }

/-- Embedding of `rejectRoleRequest`: marks the request rejected with
reviewer, timestamp and reason, then clears the user's `requestedRole`.  The
user's `role` and `roleStatus` are not touched and no claims sync happens. -/
def rejectRoleRequest (st : AppState) (adminUser : Option DbUser)
    (requestId : Nat) (reason : Option String) (now : Nat) :
    RejectResult × AppState :=
  match adminUser with
  | none => (RejectResult.adminRequired, st)
  | some a =>
    if a.role ≠ Role.admin then (RejectResult.adminRequired, st)
    else
      match findReqById st.roleRequests requestId with
      | none => (RejectResult.requestNotFound, st)
      | some rr =>
        if rr.status ≠ RoleStatus.pending then (RejectResult.alreadyProcessed, st)
        else
          match findUserById st.users rr.userId with
          | none => (RejectResult.userNotFound, st)
          | some _ => (RejectResult.rejected rr.userId, rejectedState st a rr reason requestId now)

/-! Controller: `register` (`apps/server/src/controllers/auth.ts`). -/

/-- HTTP outcomes of `register`. -/
inductive RegisterResult where
  | invalidUserData
  | alreadyRegistered
  | registeredWithRequest (requestedRole : Role)
  | registered
  | serverError
deriving DecidableEq, Repr

/-- Test from `auth.ts` lines 41/53: the body's `requestedRole` triggers the
upgrade path only when it is exactly `vet` or `admin`. -/
def wantsUpgrade : Option Role → Bool
  | some Role.vet => true
  | some Role.admin => true
  | _ => false

/-- Embedding of `register`.  `uid`/`email` come from the verified token (an
empty string models a missing field, which JavaScript treats as falsy);
`requestedRole` is the request body's field parsed into the role enumeration.
`newUserId`/`newReqId` are the fresh Mongo ids.  The user document is created
before the claims push; a failing push therefore leaves the user created but
no role request, and answers 500. -/
def register (st : AppState) (uid email : String) (requestedRole : Option Role)
    (newUserId newReqId : Nat) (pushOk : Bool) : RegisterResult × AppState :=
  if uid = "" ∨ email = "" then (RegisterResult.invalidUserData, st)
  else
    match findUserByUid st.users uid with
    | some _ => (RegisterResult.alreadyRegistered, st)
    | none =>
      let newUser : User :=
        { id := newUserId
          firebaseUid := uid
          email := email
          role := Role.owner
          roleStatus := RoleStatus.approved
          requestedRole := if wantsUpgrade requestedRole then requestedRole else none }
      let st1 : AppState := { st with users := st.users ++ [newUser] }
      if pushOk then
        let claims2 := setClaim st1.claims uid ⟨Role.owner, RoleStatus.approved⟩
        let st2 : AppState := { st1 with claims := claims2 }
        match requestedRole with
        | some Role.vet =>
          (RegisterResult.registeredWithRequest Role.vet,
           { st2 with roleRequests := st2.roleRequests ++
              [⟨newReqId, newUserId, Role.vet, RoleStatus.pending, none, none, none⟩] })
        | some Role.admin =>
          (RegisterResult.registeredWithRequest Role.admin,
           { st2 with roleRequests := st2.roleRequests ++
              [⟨newReqId, newUserId, Role.admin, RoleStatus.pending, none, none, none⟩] })
        | _ => (RegisterResult.registered, st2)
      else (RegisterResult.serverError, st1)

/-! Controller: `requestRoleUpgrade` (`apps/server/src/controllers/auth.ts`). -/

/-- HTTP outcomes of `requestRoleUpgrade`. -/
inductive UpgradeResult where
  | userNotFound
  | invalidRole
  | alreadyHasRole
  | duplicatePending
  | missingEvidence
  | submitted (requestedRole : Role)
deriving DecidableEq, Repr

/-- Reason text stored on a vet upgrade request (`auth.ts` line 136). -/
def licenseReason (licenseNumber licenseCountry : Option String) : String :=
  "License: " ++ licenseNumber.getD "" ++ ", Country: " ++ licenseCountry.getD ""

/-- Pending-request lookup from `auth.ts` lines 112–115
(`RoleRequest.findOne({userId, status: pending})`). -/
def hasPendingReq (st : AppState) (uid : Nat) : Bool :=
  (st.roleRequests.find? (fun q =>
    q.userId == uid && q.status == RoleStatus.pending)).isSome

/-- Role request created by `requestRoleUpgrade` (`auth.ts` lines 131–138). -/
def upgradeReq (u : DbUser) (r : Role) (licenseNumber licenseCountry : Option String)
    (newReqId : Nat) : RoleRequest :=
  { id := newReqId
    userId := u.id
    requestedRole := r
    status := RoleStatus.pending
    reviewedBy := none
    reviewedAt := none
    reason := if r = Role.vet
      then some (licenseReason licenseNumber licenseCountry) else none }

/-- Mutation of the user on a successful upgrade request (`auth.ts` lines
141–143): only `requestedRole` is written. -/
def upgradeUserUpdate (r : Role) (u : User) : User := { u with requestedRole := some r }

/-- Embedding of `requestRoleUpgrade`.  `dbUser` is `req.dbUser`; the body's
`requestedRole` is `none` when missing or not a known role. -/
def requestRoleUpgrade (st : AppState) (dbUser : Option DbUser)
    (requestedRole : Option Role) (licenseNumber licenseCountry : Option String)
    (newReqId : Nat) : UpgradeResult × AppState :=
  match dbUser with
  | none => (UpgradeResult.userNotFound, st)
  | some u =>
    match requestedRole with
    | none => (UpgradeResult.invalidRole, st)
    | some r =>
      if r ≠ Role.vet ∧ r ≠ Role.admin then (UpgradeResult.invalidRole, st)
      else if u.role = r ∧ u.roleStatus = RoleStatus.approved then
        (UpgradeResult.alreadyHasRole, st)
      else if hasPendingReq st u.id then
        (UpgradeResult.duplicatePending, st)
      else if r = Role.vet ∧ (falsyStr licenseNumber ∨ falsyStr licenseCountry) then
        (UpgradeResult.missingEvidence, st)
      else
        (UpgradeResult.submitted r,
         { st with
           roleRequests := st.roleRequests ++
             [upgradeReq u r licenseNumber licenseCountry newReqId]
           users := updateWhere (fun x => x.id == u.id)
             (upgradeUserUpdate r) st.users })

/-! Pipeline: `attachDbUser` + `requireApprovedStatus` + `requireRole`
(`apps/server/src/middleware/auth.middleware.ts`), composed in route order. -/

/-- Authorization decision for a protected, role-gated route. -/
inductive AuthDecision where
  | notRegistered
  | pendingApproval
  | requestRejected
  | insufficientPrivilege
  | pass (dbUser : DbUser)
deriving DecidableEq, Repr

/-- The request-context user built by `attachDbUser` from the record store. -/
def toDbUser (u : User) : DbUser :=
  { id := u.id, role := u.role, roleStatus := u.roleStatus,
    requestedRole := u.requestedRole }

/-- Embedding of the middleware chain `attachDbUser` →
`requireApprovedStatus` → `requireRole allowed` for a verified token `tok`:
the user is loaded from the record store by the token's uid, and every check
reads only that record-store user — never the token's claims payload. -/
def authorize (st : AppState) (tok : DecodedToken) (allowed : List Role) :
    AuthDecision :=
  match findUserByUid st.users tok.uid with
  | none => AuthDecision.notRegistered
  | some u =>
    if u.roleStatus = RoleStatus.pending then AuthDecision.pendingApproval
    else if u.roleStatus = RoleStatus.rejected then AuthDecision.requestRejected
    else if allowed.contains u.role then AuthDecision.pass (toDbUser u)
    else AuthDecision.insufficientPrivilege

/-! Claims synchronizer (`apps/server/src/services/user.ts`) and the admin
bootstrap paths (`createInitialAdmin`, `scripts/create-admin.ts`). -/

/-- Outcome of a `syncFirebaseClaims` call (it rethrows provider errors). -/
inductive SyncResult where
  | synced
  | syncFailed
deriving DecidableEq, Repr

/-- Embedding of `syncFirebaseClaims`: write the `(role, roleStatus)` payload
into the claims store for the subject; on provider failure (`ok = false`) the
error is logged and rethrown with no state change. -/
def syncFirebaseClaims (st : AppState) (firebaseUid : String) (role : Role)
    (roleStatus : RoleStatus) (ok : Bool) : SyncResult × AppState :=
  if ok then
    (SyncResult.synced,
     { st with claims := setClaim st.claims firebaseUid ⟨role, roleStatus⟩ })
  else (SyncResult.syncFailed, st)

/-- Outcome of `createInitialAdmin`. -/
inductive InitAdminResult where
  | adminExists
  | created
  | syncFailed
deriving DecidableEq, Repr

/-- Embedding of `createInitialAdmin` (`services/user.ts` lines 80–101):
refuses when any admin exists, else creates an `(admin, approved)` user and
syncs claims. -/
def createInitialAdmin (st : AppState) (firebaseUid email : String)
    (newUserId : Nat) (pushOk : Bool) : InitAdminResult × AppState :=
  if (st.users.find? (fun u => u.role == Role.admin)).isSome then
    (InitAdminResult.adminExists, st)
  else
    let st1 : AppState := { st with users := st.users ++
      [⟨newUserId, firebaseUid, email, Role.admin, RoleStatus.approved, none⟩] }
    if pushOk then
      (InitAdminResult.created,
       { st1 with claims :=
          setClaim st1.claims firebaseUid ⟨Role.admin, RoleStatus.approved⟩ })
    else (InitAdminResult.syncFailed, st1)

/-- Embedding of the create-admin script's `createOrUpdateMongoUser`
(`scripts/create-admin.ts` lines 85–108): promote an existing user to
`(admin, approved)` in place, or insert a fresh admin user. -/
def createOrUpdateMongoUser (st : AppState) (firebaseUid email : String)
    (newUserId : Nat) : AppState :=
  match findUserByUid st.users firebaseUid with
  | some _ =>
    let users1 := updateWhere (fun u => u.firebaseUid == firebaseUid)
      (fun u => { u with
        role := Role.admin
        roleStatus := RoleStatus.approved
        requestedRole := none }) st.users
    { st with users := users1 }
  | none =>
    { st with users := st.users ++
      [⟨newUserId, firebaseUid, email, Role.admin, RoleStatus.approved, none⟩] }

/-! System-level predicates used by the invariants. -/

/-- Pending role requests of one user. -/
def pendingFor (st : AppState) (uid : Nat) : List RoleRequest :=
  st.roleRequests.filter (fun q => q.userId == uid && q.status == RoleStatus.pending)

/-- Invariant: every user has at most one pending role request. -/
def atMostOnePending (st : AppState) : Prop :=
  ∀ uid : Nat, (pendingFor st uid).length ≤ 1

/-- Invariant: every stored user has `roleStatus = approved`. -/
def allApproved (st : AppState) : Prop :=
  ∀ u ∈ st.users, u.roleStatus = RoleStatus.approved

/-! Concrete scenario data (the spec's Scenarios B–E): an approved admin, an
owner who requested the vet role with license evidence, and that pending
request. -/

/-- Approved administrator on record. -/
def adminAlice : User := ⟨1, "uidA", "alice@x", Role.admin, RoleStatus.approved, none⟩

/-- Owner who has requested the vet role. -/
def bobUser : User := ⟨2, "uidB", "bob@x", Role.owner, RoleStatus.approved, some Role.vet⟩

/-- Bob's pending vet role request carrying license evidence in its reason. -/
def vetReq : RoleRequest :=
  ⟨10, 2, Role.vet, RoleStatus.pending, none, none, some "License: VET-9, Country: US"⟩

/-- Record-store state with the admin, the requesting owner and the pending
request. -/
def baseState : AppState := ⟨[adminAlice, bobUser], [vetReq], [], []⟩

/-- The admin's request-context view. -/
def adminDb : DbUser := ⟨1, Role.admin, RoleStatus.approved, none⟩

/-- A second, fresh owner used for upgrade-request scenarios. -/
def carolUser : User := ⟨5, "uidC", "carol@x", Role.owner, RoleStatus.approved, none⟩

/-- Record-store state containing only the fresh owner. -/
def carolState : AppState := ⟨[carolUser], [], [], []⟩

/-- The fresh owner's request-context view. -/
def carolDb : DbUser := ⟨5, Role.owner, RoleStatus.approved, none⟩

/-! General lemmas about the list primitives. -/

theorem find?_updateWhere_eq_some {α : Type} {p : α → Bool} {f : α → α}
    {l : List α} {x : α} (hx : l.find? p = some x)
    (hpf : ∀ y, p y = true → p (f y) = true) :
    (updateWhere p f l).find? p = some (f x) := by
  induction l with
  | nil => simp [List.find?] at hx
  | cons a l ih =>
    rw [updateWhere]
    by_cases h : p a = true
    · rw [List.find?_cons_of_pos _ h] at hx
      injection hx with hx
      subst hx
      rw [if_pos h]
      exact List.find?_cons_of_pos _ (hpf a h)
    · have h' : ¬ (p a = true) := h
      rw [List.find?_cons_of_neg _ h'] at hx
      rw [if_neg h', List.find?_cons_of_neg _ h']
      exact ih hx

theorem find?_append_singleton {α : Type} {p : α → Bool} {l : List α} {x : α}
    (hl : l.find? p = none) (hx : p x = true) :
    (l ++ [x]).find? p = some x := by
  induction l with
  | nil => simpa using List.find?_cons_of_pos ([] : List α) hx
  | cons a l ih =>
    by_cases h : p a = true
    · rw [List.find?_cons_of_pos _ h] at hl
      exact absurd hl (by simp)
    · have h' : ¬ (p a = true) := h
      rw [List.find?_cons_of_neg _ h'] at hl
      rw [List.cons_append, List.find?_cons_of_neg _ h']
      exact ih hl

theorem mem_updateWhere_cases {α : Type} {p : α → Bool} {f : α → α}
    {l : List α} {y : α} (hy : y ∈ updateWhere p f l) :
    ∃ x, x ∈ l ∧ (y = x ∨ y = f x) := by
  induction l with
  | nil => simp [updateWhere] at hy
  | cons a l ih =>
    rw [updateWhere] at hy
    rcases List.mem_cons.mp hy with h | h
    · by_cases hpa : p a = true
      · rw [if_pos hpa] at h
        exact ⟨a, List.mem_cons_self a l, Or.inr h⟩
      · rw [if_neg hpa] at h
        exact ⟨a, List.mem_cons_self a l, Or.inl h⟩
    · obtain ⟨x, hx, hyx⟩ := ih h
      exact ⟨x, List.mem_cons_of_mem _ hx, hyx⟩

theorem mem_updateWhere_of_neg {α : Type} {p : α → Bool} {f : α → α}
    {l : List α} {y : α} (hy : y ∈ l) (hn : p y = false) :
    y ∈ updateWhere p f l := by
  induction l with
  | nil => simp at hy
  | cons a l ih =>
    rw [updateWhere]
    rcases List.mem_cons.mp hy with h | h
    · subst h
      rw [if_neg (by simp [hn])]
      exact List.mem_cons_self y (updateWhere p f l)
    · exact List.mem_cons_of_mem _ (ih h)

theorem findVet_upsert (ps : List VetProfile) (uid : Nat)
    (f : VetProfile → VetProfile) (fresh : VetProfile)
    (hf : ∀ q, (q.userId == uid) = true → ((f q).userId == uid) = true)
    (hfresh : (fresh.userId == uid) = true) :
    (∃ q, ps.find? (fun p => p.userId == uid) = some q ∧
       findVetByUserId (upsertVetProfile ps uid f fresh) uid = some (f q)) ∨
    (ps.find? (fun p => p.userId == uid) = none ∧
       findVetByUserId (upsertVetProfile ps uid f fresh) uid = some fresh) := by
  unfold upsertVetProfile findVetByUserId
  cases hq : ps.find? (fun p => p.userId == uid) with
  | none =>
    refine Or.inr ⟨rfl, ?_⟩
    rw [if_neg (by simp [hq])]
    exact find?_append_singleton hq hfresh
  | some q =>
    refine Or.inl ⟨q, rfl, ?_⟩
    rw [if_pos (by simp [hq])]
    exact find?_updateWhere_eq_some hq hf

theorem approve_pending_eq (st : AppState) (a : DbUser) (rid now : Nat)
    (pushOk : Bool) (rr : RoleRequest) (target : User)
    (ha : a.role = Role.admin)
    (hrr : findReqById st.roleRequests rid = some rr)
    (hpend : rr.status = RoleStatus.pending)
    (htgt : findUserById st.users rr.userId = some target) :
    approveRoleRequest st (some a) rid now pushOk =
      if pushOk then
        (ApproveResult.approved rr.userId rr.requestedRole,
         { approvedState st a rr rid now with
             claims := setClaim st.claims target.firebaseUid
               ⟨rr.requestedRole, RoleStatus.approved⟩ })
      else (ApproveResult.serverError, approvedState st a rr rid now) := by
  have hrole : ¬ (a.role ≠ Role.admin) := by simp [ha]
  have hst : ¬ (rr.status ≠ RoleStatus.pending) := by simp [hpend]
  simp only [approveRoleRequest, hrr, htgt, if_neg hrole, if_neg hst]
  rfl

theorem reject_pending_eq (st : AppState) (a : DbUser) (rid now : Nat)
    (reason : Option String) (rr : RoleRequest) (target : User)
    (ha : a.role = Role.admin)
    (hrr : findReqById st.roleRequests rid = some rr)
    (hpend : rr.status = RoleStatus.pending)
    (htgt : findUserById st.users rr.userId = some target) :
    rejectRoleRequest st (some a) rid reason now =
      (RejectResult.rejected rr.userId, rejectedState st a rr reason rid now) := by
  have hrole : ¬ (a.role ≠ Role.admin) := by simp [ha]
  have hst : ¬ (rr.status ≠ RoleStatus.pending) := by simp [hpend]
  simp only [rejectRoleRequest, hrr, htgt, if_neg hrole, if_neg hst]

theorem setClaim_idem (m : List (String × Claims)) (uid : String) (c : Claims) :
    setClaim (setClaim m uid c) uid c = setClaim m uid c := by
  induction m with
  | nil => simp [setClaim]
  | cons kv m ih =>
    obtain ⟨k, v⟩ := kv
    by_cases h : (k == uid) = true
    · simp [setClaim, h]
    · simp only [setClaim, if_neg h]
      rw [ih]

/-! Per-operation lemmas describing every user record reachable in the
result state, used for the writer and status invariants. -/

theorem register_users_cases (st : AppState) (uid email : String)
    (reqRole : Option Role) (nU nR : Nat) (ok : Bool) :
    ∀ u' ∈ (register st uid email reqRole nU nR ok).2.users,
      u' ∈ st.users ∨
      (u'.role = Role.owner ∧ u'.roleStatus = RoleStatus.approved) := by
  intro u' hu'
  unfold register at hu'
  by_cases hv : uid = "" ∨ email = ""
  · rw [if_pos hv] at hu'
    exact Or.inl hu'
  rw [if_neg hv] at hu'
  cases hex : findUserByUid st.users uid with
  | some ex =>
    rw [hex] at hu'
    exact Or.inl hu'
  | none =>
    rw [hex] at hu'
    have hu2 : u' ∈ st.users ++
        [(⟨nU, uid, email, Role.owner, RoleStatus.approved,
          if wantsUpgrade reqRole then reqRole else none⟩ : User)] := by
      cases ok
      · exact hu'
      · rcases reqRole with _ | r
        · exact hu'
        · cases r
          · exact hu'
          · exact hu'
          · exact hu'
    rcases List.mem_append.mp hu2 with hx | hx
    · exact Or.inl hx
    · rw [List.mem_singleton.mp hx]
      exact Or.inr ⟨rfl, rfl⟩

theorem requestUpgrade_users_cases (st : AppState) (du : Option DbUser)
    (reqRole : Option Role) (ln lc : Option String) (nR : Nat) :
    ∀ u' ∈ (requestRoleUpgrade st du reqRole ln lc nR).2.users,
      ∃ x ∈ st.users, u'.role = x.role ∧ u'.roleStatus = x.roleStatus := by
  intro u' hu'
  rcases du with _ | u
  · exact ⟨u', hu', rfl, rfl⟩
  rcases reqRole with _ | r
  · exact ⟨u', hu', rfl, rfl⟩
  by_cases h1 : r ≠ Role.vet ∧ r ≠ Role.admin
  · have heq : requestRoleUpgrade st (some u) (some r) ln lc nR =
        (UpgradeResult.invalidRole, st) := by
      simp only [requestRoleUpgrade]
      rw [if_pos h1]
    rw [heq] at hu'
    exact ⟨u', hu', rfl, rfl⟩
  by_cases h2 : u.role = r ∧ u.roleStatus = RoleStatus.approved
  · have heq : requestRoleUpgrade st (some u) (some r) ln lc nR =
        (UpgradeResult.alreadyHasRole, st) := by
      simp only [requestRoleUpgrade]
      rw [if_neg h1, if_pos h2]
    rw [heq] at hu'
    exact ⟨u', hu', rfl, rfl⟩
  by_cases hp : hasPendingReq st u.id = true
  · have heq : requestRoleUpgrade st (some u) (some r) ln lc nR =
        (UpgradeResult.duplicatePending, st) := by
      simp only [requestRoleUpgrade]
      rw [if_neg h1, if_neg h2, if_pos hp]
    rw [heq] at hu'
    exact ⟨u', hu', rfl, rfl⟩
  by_cases h4 : r = Role.vet ∧ (falsyStr ln = true ∨ falsyStr lc = true)
  · have heq : requestRoleUpgrade st (some u) (some r) ln lc nR =
        (UpgradeResult.missingEvidence, st) := by
      simp only [requestRoleUpgrade]
      rw [if_neg h1, if_neg h2, if_neg hp, if_pos h4]
    rw [heq] at hu'
    exact ⟨u', hu', rfl, rfl⟩
  have heq : requestRoleUpgrade st (some u) (some r) ln lc nR =
      (UpgradeResult.submitted r,
       { st with
         roleRequests := st.roleRequests ++ [upgradeReq u r ln lc nR]
         users := updateWhere (fun x => x.id == u.id)
           (upgradeUserUpdate r) st.users }) := by
    simp only [requestRoleUpgrade]
    rw [if_neg h1, if_neg h2, if_neg hp, if_neg h4]
  rw [heq] at hu'
  rcases mem_updateWhere_cases hu' with ⟨x, hx, hcase | hcase⟩
  · exact ⟨x, hx, by rw [hcase], by rw [hcase]⟩
  · exact ⟨x, hx, by simp [hcase, upgradeUserUpdate],
      by simp [hcase, upgradeUserUpdate]⟩

theorem approve_users_cases (st : AppState) (au : Option DbUser)
    (rid now : Nat) (ok : Bool) :
    ∀ u' ∈ (approveRoleRequest st au rid now ok).2.users,
      u' ∈ st.users ∨
      ∃ rr, findReqById st.roleRequests rid = some rr ∧
        rr.status = RoleStatus.pending ∧
        u'.role = rr.requestedRole ∧ u'.roleStatus = RoleStatus.approved := by
  intro u' hu'
  rcases au with _ | a
  · exact Or.inl hu'
  by_cases hrole : a.role ≠ Role.admin
  · have heq : approveRoleRequest st (some a) rid now ok =
        (ApproveResult.adminRequired, st) := by
      simp only [approveRoleRequest]
      rw [if_pos hrole]
    rw [heq] at hu'
    exact Or.inl hu'
  cases hrr : findReqById st.roleRequests rid with
  | none =>
    have heq : approveRoleRequest st (some a) rid now ok =
        (ApproveResult.requestNotFound, st) := by
      simp only [approveRoleRequest, hrr]
      rw [if_neg hrole]
    rw [heq] at hu'
    exact Or.inl hu'
  | some rr =>
    by_cases hst : rr.status ≠ RoleStatus.pending
    · have heq : approveRoleRequest st (some a) rid now ok =
          (ApproveResult.alreadyProcessed, st) := by
        simp only [approveRoleRequest, hrr]
        rw [if_neg hrole, if_pos hst]
      rw [heq] at hu'
      exact Or.inl hu'
    cases htg : findUserById st.users rr.userId with
    | none =>
      have heq : approveRoleRequest st (some a) rid now ok =
          (ApproveResult.userNotFound, st) := by
        simp only [approveRoleRequest, hrr, htg]
        rw [if_neg hrole, if_neg hst]
      rw [heq] at hu'
      exact Or.inl hu'
    | some target =>
      have heq := approve_pending_eq st a rid now ok rr target
        (not_not.mp hrole) hrr (not_not.mp hst) htg
      rw [heq] at hu'
      have hu2 : u' ∈ (approvedState st a rr rid now).users := by
        cases ok
        · simpa using hu'
        · simpa using hu'
      rcases mem_updateWhere_cases hu2 with ⟨x, hx, hcase | hcase⟩
      · rw [hcase]
        exact Or.inl hx
      · rw [hcase]
        exact Or.inr ⟨rr, rfl, not_not.mp hst, rfl, rfl⟩

theorem reject_users_cases (st : AppState) (au : Option DbUser)
    (rid : Nat) (reason : Option String) (now : Nat) :
    ∀ u' ∈ (rejectRoleRequest st au rid reason now).2.users,
      ∃ x ∈ st.users, u'.role = x.role ∧ u'.roleStatus = x.roleStatus := by
  intro u' hu'
  rcases au with _ | a
  · exact ⟨u', hu', rfl, rfl⟩
  by_cases hrole : a.role ≠ Role.admin
  · have heq : rejectRoleRequest st (some a) rid reason now =
        (RejectResult.adminRequired, st) := by
      simp only [rejectRoleRequest]
      rw [if_pos hrole]
    rw [heq] at hu'
    exact ⟨u', hu', rfl, rfl⟩
  cases hrr : findReqById st.roleRequests rid with
  | none =>
    have heq : rejectRoleRequest st (some a) rid reason now =
        (RejectResult.requestNotFound, st) := by
      simp only [rejectRoleRequest, hrr]
      rw [if_neg hrole]
    rw [heq] at hu'
    exact ⟨u', hu', rfl, rfl⟩
  | some rr =>
    by_cases hst : rr.status ≠ RoleStatus.pending
    · have heq : rejectRoleRequest st (some a) rid reason now =
          (RejectResult.alreadyProcessed, st) := by
        simp only [rejectRoleRequest, hrr]
        rw [if_neg hrole, if_pos hst]
      rw [heq] at hu'
      exact ⟨u', hu', rfl, rfl⟩
    cases htg : findUserById st.users rr.userId with
    | none =>
      have heq : rejectRoleRequest st (some a) rid reason now =
          (RejectResult.userNotFound, st) := by
        simp only [rejectRoleRequest, hrr, htg]
        rw [if_neg hrole, if_neg hst]
      rw [heq] at hu'
      exact ⟨u', hu', rfl, rfl⟩
    | some target =>
      have heq := reject_pending_eq st a rid now reason rr target
        (not_not.mp hrole) hrr (not_not.mp hst) htg
      rw [heq] at hu'
      have hu2 : u' ∈ (rejectedState st a rr reason rid now).users := hu'
      rcases mem_updateWhere_cases hu2 with ⟨x, hx, hcase | hcase⟩
      · exact ⟨x, hx, by rw [hcase], by rw [hcase]⟩
      · exact ⟨x, hx, by simp [hcase, clearRequested],
          by simp [hcase, clearRequested]⟩

theorem createOrUpdateMongoUser_users_cases (st : AppState)
    (fuid email : String) (nU : Nat) :
    ∀ u' ∈ (createOrUpdateMongoUser st fuid email nU).users,
      u' ∈ st.users ∨
      (u'.role = Role.admin ∧ u'.roleStatus = RoleStatus.approved ∧
       u'.requestedRole = none) := by
  intro u' hu'
  unfold createOrUpdateMongoUser at hu'
  cases hex : findUserByUid st.users fuid with
  | some ex =>
    rw [hex] at hu'
    rcases mem_updateWhere_cases hu' with ⟨x, hx, hcase⟩
    rcases hcase with rfl | rfl
    · exact Or.inl hx
    · exact Or.inr ⟨rfl, rfl, rfl⟩
  | none =>
    rw [hex] at hu'
    rcases List.mem_append.mp hu' with hx | hx
    · exact Or.inl hx
    · rw [List.mem_singleton.mp hx]
      exact Or.inr ⟨rfl, rfl, rfl⟩

theorem createInitialAdmin_users_cases (st : AppState) (fuid email : String)
    (nU : Nat) (ok : Bool) :
    ∀ u' ∈ (createInitialAdmin st fuid email nU ok).2.users,
      u' ∈ st.users ∨
      (u'.role = Role.admin ∧ u'.roleStatus = RoleStatus.approved ∧
       u'.requestedRole = none) := by
  intro u' hu'
  unfold createInitialAdmin at hu'
  by_cases hadm : ((st.users.find? (fun u => u.role == Role.admin)).isSome : Bool) = true
  · rw [if_pos hadm] at hu'
    exact Or.inl hu'
  · rw [if_neg hadm] at hu'
    have hu2 : u' ∈ st.users ++
        [(⟨nU, fuid, email, Role.admin, RoleStatus.approved, none⟩ : User)] := by
      cases ok
      · exact hu'
      · exact hu'
    rcases List.mem_append.mp hu2 with hx | hx
    · exact Or.inl hx
    · rw [List.mem_singleton.mp hx]
      exact Or.inr ⟨rfl, rfl, rfl⟩

/-! Claim theorems. -/

/-- C1: Approving a pending role request sets the target user's role to the
request's `requestedRole`, `roleStatus` to approved, and clears
`requestedRole`; sets the request's status to approved recording reviewer and
timestamp; and, when the requested role is vet, upserts a VetProfile whose
license fields come from parsing the request's reason (verified) when the
reason matches the `"License: X, Country: Y"` shape, and an unverified
placeholder otherwise. -/
theorem approve_success_spec (st : AppState) (a : DbUser) (rid now : Nat)
    (rr : RoleRequest) (target : User)
    (ha : a.role = Role.admin)
    (hrr : findReqById st.roleRequests rid = some rr)
    (hpend : rr.status = RoleStatus.pending)
    (htgt : findUserById st.users rr.userId = some target) :
    (approveRoleRequest st (some a) rid now true).1 =
      ApproveResult.approved rr.userId rr.requestedRole ∧
    findUserById (approveRoleRequest st (some a) rid now true).2.users rr.userId =
      some (approveUserUpdate rr target) ∧
    findReqById (approveRoleRequest st (some a) rid now true).2.roleRequests rid =
      some (approveReqUpdate a now rr) ∧
    (rr.requestedRole = Role.vet →
      ∃ p, findVetByUserId
          (approveRoleRequest st (some a) rid now true).2.vetProfiles rr.userId =
            some p ∧
        (match parseLicense rr.reason with
         | some (ln, lc) =>
             p.licenseNumber = strTrim ln ∧ p.licenseCountry = strTrim lc ∧
             p.verified = true
         | none =>
             p.licenseNumber = "PENDING_VERIFICATION" ∧
             p.licenseCountry = "UNKNOWN" ∧ p.verified = false)) := by
  have heq := approve_pending_eq st a rid now true rr target ha hrr hpend htgt
  rw [if_pos rfl] at heq
  rw [heq]
  refine ⟨rfl, ?_, ?_, ?_⟩
  · show findUserById (approvedState st a rr rid now).users rr.userId = _
    unfold approvedState findUserById
    exact find?_updateWhere_eq_some htgt (fun y hy => hy)
  · show findReqById (approvedState st a rr rid now).roleRequests rid = _
    unfold approvedState findReqById
    exact find?_updateWhere_eq_some hrr (fun y hy => hy)
  · intro hvet
    show ∃ p, findVetByUserId (approvedState st a rr rid now).vetProfiles rr.userId =
        some p ∧ _
    unfold approvedState approveVetProfiles
    rw [if_pos hvet]
    cases hpl : parseLicense rr.reason with
    | some pair =>
      obtain ⟨ln, lc⟩ := pair
      rcases findVet_upsert st.vetProfiles rr.userId
          (fun _ => matchedVetProfile rr.userId ln lc now)
          (matchedVetProfile rr.userId ln lc now)
          (fun q _ => by simp [matchedVetProfile])
          (by simp [matchedVetProfile]) with h | h
      · obtain ⟨q, _, hres⟩ := h
        exact ⟨_, hres, by simp [matchedVetProfile]⟩
      · exact ⟨_, h.2, by simp [matchedVetProfile]⟩
    | none =>
      rcases findVet_upsert st.vetProfiles rr.userId basicVetUpdate
          (basicVetProfile rr.userId)
          (fun q hq => by simpa [basicVetUpdate] using hq)
          (by simp [basicVetProfile]) with h | h
      · obtain ⟨q, _, hres⟩ := h
        exact ⟨_, hres, by simp [basicVetUpdate]⟩
      · exact ⟨_, h.2, by simp [basicVetProfile]⟩

/-- C1 witness: Scenario C on the concrete base state — Bob becomes an
approved vet with cleared `requestedRole`, the request is marked approved by
Alice, and a verified VetProfile with license `VET-9` / country `US` exists. -/
theorem approve_success_spec_witness :
    (approveRoleRequest baseState (some adminDb) 10 99 true).1 =
      ApproveResult.approved 2 Role.vet ∧
    findUserById (approveRoleRequest baseState (some adminDb) 10 99 true).2.users 2 =
      some (approveUserUpdate vetReq bobUser) ∧
    findReqById (approveRoleRequest baseState (some adminDb) 10 99 true).2.roleRequests 10 =
      some (approveReqUpdate adminDb 99 vetReq) := by
  have h := approve_success_spec baseState adminDb 10 99 vetReq bobUser rfl rfl rfl rfl
  exact ⟨h.1, h.2.1, h.2.2.1⟩

/-- C2 counterexample: on the concrete base state a failing claims push makes
`approveRoleRequest` answer the outer-catch 500 (`serverError`) — not a
successful approval — even though the record-store role change did persist. -/
theorem approve_push_failure_not_success :
    (approveRoleRequest baseState (some adminDb) 10 99 false).1 =
      ApproveResult.serverError ∧
    (approveRoleRequest baseState (some adminDb) 10 99 false).1 ≠
      ApproveResult.approved 2 Role.vet ∧
    (findUserById (approveRoleRequest baseState (some adminDb) 10 99 false).2.users 2).map
      User.role = some Role.vet := by decide

/-- C2 amended: when the claims push fails during approve, the error
propagates to the handler's outer catch, so the caller gets the 500 failure
response instead of a success; the record-store writes are not rolled back —
users, requests and vet profiles end up exactly as in a successful run — and
the claims store is left untouched. -/
theorem approve_push_failure_persists_changes (st : AppState) (a : DbUser)
    (rid now : Nat) (rr : RoleRequest) (target : User)
    (ha : a.role = Role.admin)
    (hrr : findReqById st.roleRequests rid = some rr)
    (hpend : rr.status = RoleStatus.pending)
    (htgt : findUserById st.users rr.userId = some target) :
    approveRoleRequest st (some a) rid now false =
      (ApproveResult.serverError, approvedState st a rr rid now) ∧
    (approvedState st a rr rid now).claims = st.claims ∧
    findUserById (approvedState st a rr rid now).users rr.userId =
      some (approveUserUpdate rr target) ∧
    findReqById (approvedState st a rr rid now).roleRequests rid =
      some (approveReqUpdate a now rr) ∧
    (approvedState st a rr rid now).users =
      (approveRoleRequest st (some a) rid now true).2.users ∧
    (approvedState st a rr rid now).roleRequests =
      (approveRoleRequest st (some a) rid now true).2.roleRequests ∧
    (approvedState st a rr rid now).vetProfiles =
      (approveRoleRequest st (some a) rid now true).2.vetProfiles := by
  have heqF := approve_pending_eq st a rid now false rr target ha hrr hpend htgt
  have heqT := approve_pending_eq st a rid now true rr target ha hrr hpend htgt
  rw [if_pos rfl] at heqT
  rw [if_neg (by simp)] at heqF
  refine ⟨heqF, rfl, ?_, ?_, ?_, ?_, ?_⟩
  · unfold approvedState findUserById
    exact find?_updateWhere_eq_some htgt (fun y hy => hy)
  · unfold approvedState findReqById
    exact find?_updateWhere_eq_some hrr (fun y hy => hy)
  · rw [heqT]
  · rw [heqT]
  · rw [heqT]

/-- C2 witness: the amended statement applied on the concrete base state. -/
theorem approve_push_failure_persists_changes_witness :
    approveRoleRequest baseState (some adminDb) 10 99 false =
      (ApproveResult.serverError, approvedState baseState adminDb vetReq 10 99) ∧
    (approvedState baseState adminDb vetReq 10 99).claims = baseState.claims := by
  have h := approve_push_failure_persists_changes baseState adminDb 10 99 vetReq
    bobUser rfl rfl rfl rfl
  exact ⟨h.1, h.2.1⟩

/-- C4: Rejecting a pending role request marks that request rejected with
reviewer, timestamp and reason, clears the target user's `requestedRole`, and
changes nothing else: the user keeps role and roleStatus, other users are
untouched, and vet profiles and claims are unchanged. -/
theorem reject_frame_spec (st : AppState) (a : DbUser) (rid now : Nat)
    (reason : Option String) (rr : RoleRequest) (target : User)
    (ha : a.role = Role.admin)
    (hrr : findReqById st.roleRequests rid = some rr)
    (hpend : rr.status = RoleStatus.pending)
    (htgt : findUserById st.users rr.userId = some target) :
    (rejectRoleRequest st (some a) rid reason now).1 =
      RejectResult.rejected rr.userId ∧
    findUserById (rejectRoleRequest st (some a) rid reason now).2.users rr.userId =
      some (clearRequested target) ∧
    (clearRequested target).role = target.role ∧
    (clearRequested target).roleStatus = target.roleStatus ∧
    (clearRequested target).email = target.email ∧
    (clearRequested target).requestedRole = none ∧
    findReqById (rejectRoleRequest st (some a) rid reason now).2.roleRequests rid =
      some (rejectReqUpdate a reason now rr) ∧
    (rejectRoleRequest st (some a) rid reason now).2.vetProfiles = st.vetProfiles ∧
    (rejectRoleRequest st (some a) rid reason now).2.claims = st.claims ∧
    (∀ u ∈ st.users, (u.id == rr.userId) = false →
       u ∈ (rejectRoleRequest st (some a) rid reason now).2.users) := by
  have heq := reject_pending_eq st a rid now reason rr target ha hrr hpend htgt
  rw [heq]
  refine ⟨rfl, ?_, rfl, rfl, rfl, rfl, ?_, rfl, rfl, ?_⟩
  · unfold rejectedState findUserById
    exact find?_updateWhere_eq_some htgt (fun y hy => hy)
  · unfold rejectedState findReqById
    exact find?_updateWhere_eq_some hrr (fun y hy => hy)
  · intro u hu hne
    unfold rejectedState
    exact mem_updateWhere_of_neg hu hne

/-- C4 witness: Scenario D on the concrete base state — Bob's role and status
survive the rejection, his `requestedRole` is cleared, and the request record
carries the rejection reason. -/
theorem reject_frame_spec_witness :
    (rejectRoleRequest baseState (some adminDb) 10 (some "insufficient evidence") 99).1 =
      RejectResult.rejected 2 ∧
    findUserById
      (rejectRoleRequest baseState (some adminDb) 10 (some "insufficient evidence") 99).2.users 2 =
      some (clearRequested bobUser) ∧
    (clearRequested bobUser).role = bobUser.role ∧
    findReqById
      (rejectRoleRequest baseState (some adminDb) 10 (some "insufficient evidence") 99).2.roleRequests 10 =
      some (rejectReqUpdate adminDb (some "insufficient evidence") 99 vetReq) := by
  have h := reject_frame_spec baseState adminDb 10 99 (some "insufficient evidence")
    vetReq bobUser rfl rfl rfl rfl
  exact ⟨h.1, h.2.1, h.2.2.1, h.2.2.2.2.2.2.1⟩

/-- C7: With an admin caller, `approve` answers NotFound when no request has
the given id and AlreadyProcessed when the request is not pending, both with
the state unchanged; and immediately re-approving an already-approved request
answers AlreadyProcessed leaving the state exactly as it was. -/
theorem approve_failure_spec (st : AppState) (a : DbUser) (rid now : Nat)
    (pushOk : Bool) (ha : a.role = Role.admin) :
    (findReqById st.roleRequests rid = none →
       approveRoleRequest st (some a) rid now pushOk =
         (ApproveResult.requestNotFound, st)) ∧
    (∀ rr, findReqById st.roleRequests rid = some rr →
       rr.status ≠ RoleStatus.pending →
       approveRoleRequest st (some a) rid now pushOk =
         (ApproveResult.alreadyProcessed, st)) ∧
    (∀ rr target, findReqById st.roleRequests rid = some rr →
       rr.status = RoleStatus.pending →
       findUserById st.users rr.userId = some target →
       ∀ now2 pushOk2,
         approveRoleRequest (approveRoleRequest st (some a) rid now true).2
             (some a) rid now2 pushOk2 =
           (ApproveResult.alreadyProcessed,
            (approveRoleRequest st (some a) rid now true).2)) := by
  have hrole : ¬ (a.role ≠ Role.admin) := by simp [ha]
  refine ⟨?_, ?_, ?_⟩
  · intro hnone
    simp only [approveRoleRequest, hnone, if_neg hrole]
  · intro rr hrr hnp
    simp only [approveRoleRequest, hrr, if_neg hrole, if_pos hnp]
  · intro rr target hrr hpend htgt now2 pushOk2
    have heq := approve_pending_eq st a rid now true rr target ha hrr hpend htgt
    rw [if_pos rfl] at heq
    rw [heq]
    have hfind : findReqById
        ({ approvedState st a rr rid now with
             claims := setClaim st.claims target.firebaseUid
               ⟨rr.requestedRole, RoleStatus.approved⟩ } : AppState).roleRequests rid =
        some (approveReqUpdate a now rr) := by
      show findReqById (approvedState st a rr rid now).roleRequests rid = _
      unfold approvedState findReqById
      exact find?_updateWhere_eq_some hrr (fun y hy => hy)
    have hnp : (approveReqUpdate a now rr).status ≠ RoleStatus.pending := by
      simp [approveReqUpdate]
    simp only [approveRoleRequest, hfind, if_neg hrole, if_pos hnp]

/-- C7 witness: Scenario E plus the two failure cases on the concrete base
state — an unknown id answers NotFound, and the second approval of request 10
answers AlreadyProcessed without further change. -/
theorem approve_failure_spec_witness :
    approveRoleRequest baseState (some adminDb) 77 99 true =
      (ApproveResult.requestNotFound, baseState) ∧
    approveRoleRequest (approveRoleRequest baseState (some adminDb) 10 99 true).2
        (some adminDb) 10 100 true =
      (ApproveResult.alreadyProcessed,
       (approveRoleRequest baseState (some adminDb) 10 99 true).2) := by
  have h := approve_failure_spec baseState adminDb 77 99 true rfl
  have h10 := approve_failure_spec baseState adminDb 10 99 true rfl
  exact ⟨h.1 rfl, h10.2.2 vetReq bobUser rfl rfl rfl 100 true⟩

/-- C3: The authorization decision of the middleware chain is computed only
from the record-store user found by the token's subject uid and the route's
allow-set: two verified credentials with the same uid but arbitrarily
different embedded claims payloads get identical decisions against the same
record-store state. -/
theorem authorize_ignores_credential_claims (st : AppState)
    (t1 t2 : DecodedToken) (allowed : List Role) (h : t1.uid = t2.uid) :
    authorize st t1 allowed = authorize st t2 allowed := by
  unfold authorize
  rw [h]

/-- C3 witness: a credential claiming `admin/approved` and one with no claims
payload at all, both for Bob's uid, get the same decision on the base
state. -/
theorem authorize_ignores_credential_claims_witness :
    (DecodedToken.mk "uidB" "bob@x" (some Role.admin) (some RoleStatus.approved)).uid =
      (DecodedToken.mk "uidB" "attacker@x" none none).uid ∧
    authorize baseState
        (DecodedToken.mk "uidB" "bob@x" (some Role.admin) (some RoleStatus.approved))
        [Role.admin] =
      authorize baseState (DecodedToken.mk "uidB" "attacker@x" none none)
        [Role.admin] :=
  ⟨rfl, authorize_ignores_credential_claims baseState
    (DecodedToken.mk "uidB" "bob@x" (some Role.admin) (some RoleStatus.approved))
    (DecodedToken.mk "uidB" "attacker@x" none none) [Role.admin] rfl⟩

/-- C9: the Claims Synchronizer push is idempotent — syncing the same
`(role, roleStatus)` twice in a row leaves the claims store in the same final
state as syncing once. -/
theorem syncFirebaseClaims_idempotent (st : AppState) (firebaseUid : String)
    (role : Role) (roleStatus : RoleStatus) :
    (syncFirebaseClaims (syncFirebaseClaims st firebaseUid role roleStatus true).2
        firebaseUid role roleStatus true).2 =
      (syncFirebaseClaims st firebaseUid role roleStatus true).2 := by
  simp [syncFirebaseClaims, setClaim_idem]

/-- C6: `register` answers AlreadyRegistered when a user already exists for
the identity subject, and otherwise creates the user as `(owner, approved)` —
whatever the optional requested role was — appending exactly one pending
RoleRequest and recording `requestedRole` when that role is vet or admin, and
touching no requests otherwise. -/
theorem register_spec (st : AppState) (uid email : String)
    (reqRole : Option Role) (nU nR : Nat)
    (hu : uid ≠ "") (he : email ≠ "") :
    (∀ ex, findUserByUid st.users uid = some ex →
       register st uid email reqRole nU nR true =
         (RegisterResult.alreadyRegistered, st)) ∧
    (findUserByUid st.users uid = none →
       (register st uid email reqRole nU nR true).2.users =
         st.users ++ [⟨nU, uid, email, Role.owner, RoleStatus.approved,
           if wantsUpgrade reqRole then reqRole else none⟩] ∧
       findUserByUid (register st uid email reqRole nU nR true).2.users uid =
         some ⟨nU, uid, email, Role.owner, RoleStatus.approved,
           if wantsUpgrade reqRole then reqRole else none⟩ ∧
       (∀ r, reqRole = some r → (r = Role.vet ∨ r = Role.admin) →
          (register st uid email reqRole nU nR true).1 =
            RegisterResult.registeredWithRequest r ∧
          (register st uid email reqRole nU nR true).2.roleRequests =
            st.roleRequests ++
              [⟨nR, nU, r, RoleStatus.pending, none, none, none⟩]) ∧
       (wantsUpgrade reqRole = false →
          (register st uid email reqRole nU nR true).1 = RegisterResult.registered ∧
          (register st uid email reqRole nU nR true).2.roleRequests =
            st.roleRequests)) := by
  have hne : ¬ (uid = "" ∨ email = "") := by simp [hu, he]
  constructor
  · intro ex hex
    simp only [register, hex, if_neg hne]
  · intro hnone
    have hfind : ∀ w : Option Role,
        findUserByUid
          (st.users ++ [(⟨nU, uid, email, Role.owner, RoleStatus.approved, w⟩ : User)])
          uid =
          some ⟨nU, uid, email, Role.owner, RoleStatus.approved, w⟩ := by
      intro w
      unfold findUserByUid at hnone ⊢
      exact find?_append_singleton hnone (by simp)
    rcases reqRole with _ | r
    · simp only [register, hnone, if_neg hne, wantsUpgrade]
      refine ⟨rfl, hfind none, ?_, fun _ => ⟨rfl, rfl⟩⟩
      intro r hr
      exact Option.noConfusion hr
    · cases r with
      | owner =>
        simp only [register, hnone, if_neg hne, wantsUpgrade]
        refine ⟨rfl, hfind none, ?_, fun _ => ⟨rfl, rfl⟩⟩
        intro r hr hor
        injection hr with hr
        subst hr
        rcases hor with h | h <;> exact absurd h (by decide)
      | vet =>
        simp only [register, hnone, if_neg hne, wantsUpgrade]
        refine ⟨rfl, hfind (some Role.vet), ?_, ?_⟩
        · intro r hr hor
          injection hr with hr
          subst hr
          exact ⟨rfl, rfl⟩
        · intro hw
          exact Bool.noConfusion hw
      | admin =>
        simp only [register, hnone, if_neg hne, wantsUpgrade]
        refine ⟨rfl, hfind (some Role.admin), ?_, ?_⟩
        · intro r hr hor
          injection hr with hr
          subst hr
          exact ⟨rfl, rfl⟩
        · intro hw
          exact Bool.noConfusion hw

/-- C6 witness: Scenario B on the concrete base state — registering a new
subject with `requestedRole = vet` creates an `(owner, approved)` user with
`requestedRole` recorded and appends exactly one pending vet RoleRequest. -/
theorem register_spec_witness :
    (register baseState "uidC" "carol@x" (some Role.vet) 3 11 true).1 =
      RegisterResult.registeredWithRequest Role.vet ∧
    findUserByUid (register baseState "uidC" "carol@x" (some Role.vet) 3 11 true).2.users
        "uidC" =
      some ⟨3, "uidC", "carol@x", Role.owner, RoleStatus.approved, some Role.vet⟩ ∧
    (register baseState "uidC" "carol@x" (some Role.vet) 3 11 true).2.roleRequests =
      baseState.roleRequests ++
        [⟨11, 3, Role.vet, RoleStatus.pending, none, none, none⟩] := by
  have h := register_spec baseState "uidC" "carol@x" (some Role.vet) 3 11
    (by decide) (by decide)
  have h2 := h.2 rfl
  have h3 := h2.2.2.1 Role.vet rfl (Or.inl rfl)
  exact ⟨h3.1, h2.2.1, h3.2⟩

/-- C5: `requestRoleUpgrade` fails with InvalidRole unless the requested role
is vet or admin, with AlreadyHasRole when the caller already holds that role
approved, with DuplicatePending when a pending request exists, and with
MissingEvidence for a vet request without license evidence; otherwise it
appends exactly one pending RoleRequest and records the user's
`requestedRole`; and it preserves the at-most-one-pending-request-per-user
invariant on every path. -/
theorem requestUpgrade_spec (st : AppState) (u : DbUser) (reqRole : Option Role)
    (ln lc : Option String) (newReqId : Nat) :
    (reqRole = none ∨ reqRole = some Role.owner →
       requestRoleUpgrade st (some u) reqRole ln lc newReqId =
         (UpgradeResult.invalidRole, st)) ∧
    (∀ r, reqRole = some r → (r = Role.vet ∨ r = Role.admin) →
       u.role = r → u.roleStatus = RoleStatus.approved →
       requestRoleUpgrade st (some u) reqRole ln lc newReqId =
         (UpgradeResult.alreadyHasRole, st)) ∧
    (∀ r, reqRole = some r → (r = Role.vet ∨ r = Role.admin) →
       ¬(u.role = r ∧ u.roleStatus = RoleStatus.approved) →
       hasPendingReq st u.id = true →
       requestRoleUpgrade st (some u) reqRole ln lc newReqId =
         (UpgradeResult.duplicatePending, st)) ∧
    (reqRole = some Role.vet →
       ¬(u.role = Role.vet ∧ u.roleStatus = RoleStatus.approved) →
       hasPendingReq st u.id = false →
       (falsyStr ln = true ∨ falsyStr lc = true) →
       requestRoleUpgrade st (some u) reqRole ln lc newReqId =
         (UpgradeResult.missingEvidence, st)) ∧
    (∀ r, reqRole = some r → (r = Role.vet ∨ r = Role.admin) →
       ¬(u.role = r ∧ u.roleStatus = RoleStatus.approved) →
       hasPendingReq st u.id = false →
       (r = Role.vet → falsyStr ln = false ∧ falsyStr lc = false) →
       requestRoleUpgrade st (some u) reqRole ln lc newReqId =
         (UpgradeResult.submitted r,
          { st with
            roleRequests := st.roleRequests ++ [upgradeReq u r ln lc newReqId]
            users := updateWhere (fun x => x.id == u.id)
              (upgradeUserUpdate r) st.users })) ∧
    (atMostOnePending st →
       atMostOnePending (requestRoleUpgrade st (some u) reqRole ln lc newReqId).2) := by
  refine ⟨?_, ?_, ?_, ?_, ?_, ?_⟩
  · rintro (rfl | rfl)
    · rfl
    · simp [requestRoleUpgrade]
  · intro r hr hor hrole hstat
    subst hr
    have h1 : ¬ (r ≠ Role.vet ∧ r ≠ Role.admin) := by
      rcases hor with rfl | rfl <;> simp
    simp only [requestRoleUpgrade]
    rw [if_neg h1, if_pos ⟨hrole, hstat⟩]
  · intro r hr hor h2 hp
    subst hr
    have h1 : ¬ (r ≠ Role.vet ∧ r ≠ Role.admin) := by
      rcases hor with rfl | rfl <;> simp
    simp only [requestRoleUpgrade]
    rw [if_neg h1, if_neg h2, if_pos hp]
  · intro hr h2 hp hev
    subst hr
    have h1 : ¬ (Role.vet ≠ Role.vet ∧ Role.vet ≠ Role.admin) := by simp
    have h3 : ¬ (hasPendingReq st u.id = true) := by simp [hp]
    simp only [requestRoleUpgrade]
    rw [if_neg h1, if_neg h2, if_neg h3]
    rcases hev with hev | hev <;> simp [hev]
  · intro r hr hor h2 hp hev
    subst hr
    have h1 : ¬ (r ≠ Role.vet ∧ r ≠ Role.admin) := by
      rcases hor with rfl | rfl <;> simp
    have h4 : ¬ (r = Role.vet ∧ (falsyStr ln = true ∨ falsyStr lc = true)) := by
      rintro ⟨rfl, hd⟩
      rcases hd with hd | hd
      · rw [(hev rfl).1] at hd
        exact Bool.noConfusion hd
      · rw [(hev rfl).2] at hd
        exact Bool.noConfusion hd
    simp only [requestRoleUpgrade]
    rw [if_neg h1, if_neg h2, if_neg (by simp [hp]), if_neg h4]
  · intro hinv
    rcases reqRole with _ | r
    · exact hinv
    · simp only [requestRoleUpgrade]
      by_cases h1 : r ≠ Role.vet ∧ r ≠ Role.admin
      · rw [if_pos h1]
        exact hinv
      rw [if_neg h1]
      by_cases h2 : u.role = r ∧ u.roleStatus = RoleStatus.approved
      · rw [if_pos h2]
        exact hinv
      rw [if_neg h2]
      by_cases hp : hasPendingReq st u.id = true
      · rw [if_pos hp]
        exact hinv
      · have hp' : hasPendingReq st u.id = false := by
          cases h : hasPendingReq st u.id
          · rfl
          · exact absurd h hp
        rw [if_neg hp]
        by_cases h4 : r = Role.vet ∧ (falsyStr ln = true ∨ falsyStr lc = true)
        · rw [if_pos h4]
          exact hinv
        rw [if_neg h4]
        have hnone : st.roleRequests.find?
            (fun q => q.userId == u.id && q.status == RoleStatus.pending) = none := by
          cases hfind : st.roleRequests.find?
              (fun q => q.userId == u.id && q.status == RoleStatus.pending) with
          | none => rfl
          | some q =>
            unfold hasPendingReq at hp'
            rw [hfind] at hp'
            simp at hp'
        have hall := List.find?_eq_none.mp hnone
        intro uid
        show (List.filter _
          (st.roleRequests ++ [upgradeReq u r ln lc newReqId])).length ≤ 1
        rw [List.filter_append]
        by_cases hu : u.id = uid
        · subst hu
          have hnil : st.roleRequests.filter
              (fun q => q.userId == u.id && q.status == RoleStatus.pending) = [] :=
            List.filter_eq_nil_iff.mpr hall
          rw [hnil]
          simp [upgradeReq]
        · have hne : ((upgradeReq u r ln lc newReqId).userId == uid) = false := by
            simp [upgradeReq, hu]
          have hone : List.filter
              (fun q => q.userId == uid && q.status == RoleStatus.pending)
              [upgradeReq u r ln lc newReqId] = [] := by
            simp [List.filter, hne]
          rw [hone]
          simpa [pendingFor] using hinv uid

/-- C5 witness: a fresh owner with valid vet evidence succeeds and the
at-most-one-pending invariant holds afterwards. -/
theorem requestUpgrade_spec_witness :
    requestRoleUpgrade carolState (some carolDb) (some Role.vet)
        (some "L-1") (some "US") 20 =
      (UpgradeResult.submitted Role.vet,
       { carolState with
         roleRequests := carolState.roleRequests ++
           [upgradeReq carolDb Role.vet (some "L-1") (some "US") 20]
         users := updateWhere (fun x => x.id == carolDb.id)
           (upgradeUserUpdate Role.vet) carolState.users }) ∧
    atMostOnePending (requestRoleUpgrade carolState (some carolDb) (some Role.vet)
        (some "L-1") (some "US") 20).2 := by
  have h := requestUpgrade_spec carolState carolDb (some Role.vet)
    (some "L-1") (some "US") 20
  refine ⟨h.2.2.2.2.1 Role.vet rfl (Or.inl rfl) (by decide) (by decide)
    (fun _ => ⟨rfl, rfl⟩), h.2.2.2.2.2 ?_⟩
  intro uid
  simp [pendingFor, carolState]

/-- C10: Starting from a state where every user is approved, none of the four
lifecycle operations ever writes `pending` or `rejected` into a user's
`roleStatus` — every reachable user stays approved — and consequently the
pipeline's PendingApproval and RequestRejected rejection branches are
unreachable. -/
theorem roleStatus_always_approved (st : AppState) (h : allApproved st) :
    (∀ uid email reqRole nU nR ok,
       allApproved (register st uid email reqRole nU nR ok).2) ∧
    (∀ du reqRole ln lc nR,
       allApproved (requestRoleUpgrade st du reqRole ln lc nR).2) ∧
    (∀ au rid now ok, allApproved (approveRoleRequest st au rid now ok).2) ∧
    (∀ au rid reason now,
       allApproved (rejectRoleRequest st au rid reason now).2) ∧
    (∀ tok allowed,
       authorize st tok allowed ≠ AuthDecision.pendingApproval ∧
       authorize st tok allowed ≠ AuthDecision.requestRejected) := by
  refine ⟨?_, ?_, ?_, ?_, ?_⟩
  · intro uid email reqRole nU nR ok u' hu'
    rcases register_users_cases st uid email reqRole nU nR ok u' hu' with hx | hx
    · exact h u' hx
    · exact hx.2
  · intro du reqRole ln lc nR u' hu'
    obtain ⟨x, hx, _, hs⟩ := requestUpgrade_users_cases st du reqRole ln lc nR u' hu'
    rw [hs]
    exact h x hx
  · intro au rid now ok u' hu'
    rcases approve_users_cases st au rid now ok u' hu' with hx | hx
    · exact h u' hx
    · obtain ⟨rr, _, _, _, hs⟩ := hx
      exact hs
  · intro au rid reason now u' hu'
    obtain ⟨x, hx, _, hs⟩ := reject_users_cases st au rid reason now u' hu'
    rw [hs]
    exact h x hx
  · intro tok allowed
    cases hf : findUserByUid st.users tok.uid with
    | none =>
      have heq : authorize st tok allowed = AuthDecision.notRegistered := by
        simp only [authorize, hf]
      rw [heq]
      exact ⟨fun hc => AuthDecision.noConfusion hc,
             fun hc => AuthDecision.noConfusion hc⟩
    | some u =>
      have hf' : st.users.find? (fun x => x.firebaseUid == tok.uid) = some u := hf
      have hs := h u (List.mem_of_find?_eq_some hf')
      have h1 : ¬ (u.roleStatus = RoleStatus.pending) := by simp [hs]
      have h2 : ¬ (u.roleStatus = RoleStatus.rejected) := by simp [hs]
      have heq : authorize st tok allowed =
          (if allowed.contains u.role = true then AuthDecision.pass (toDbUser u)
           else AuthDecision.insufficientPrivilege) := by
        simp only [authorize, hf]
        rw [if_neg h1, if_neg h2]
      rw [heq]
      by_cases hc : allowed.contains u.role = true
      · rw [if_pos hc]
        exact ⟨fun hcc => AuthDecision.noConfusion hcc,
               fun hcc => AuthDecision.noConfusion hcc⟩
      · rw [if_neg hc]
        exact ⟨fun hcc => AuthDecision.noConfusion hcc,
               fun hcc => AuthDecision.noConfusion hcc⟩

/-- C10 witness: the concrete base state is all-approved; rejecting the
pending request keeps it all-approved and the pipeline never answers
PendingApproval there. -/
theorem roleStatus_always_approved_witness :
    allApproved (rejectRoleRequest baseState (some adminDb) 10 none 5).2 ∧
    authorize baseState (DecodedToken.mk "uidB" "bob@x" none none) [Role.admin] ≠
      AuthDecision.pendingApproval := by
  have hb : allApproved baseState := by
    intro u hu
    simp [baseState, adminAlice, bobUser] at hu
    rcases hu with rfl | rfl <;> rfl
  have h := roleStatus_always_approved baseState hb
  exact ⟨h.2.2.2.1 (some adminDb) 10 none 5,
    (h.2.2.2.2 (DecodedToken.mk "uidB" "bob@x" none none) [Role.admin]).1⟩

/-- C8 counterexample: the create-admin script's `createOrUpdateMongoUser` —
an operation other than register/requestUpgrade/approve/reject — rewrites an
existing user's `role`: on the base state Bob is an owner, and after the
script runs for his uid he is an admin. -/
theorem role_writers_counterexample :
    (findUserByUid baseState.users "uidB").map User.role = some Role.owner ∧
    (findUserByUid (createOrUpdateMongoUser baseState "uidB" "bob@x" 7).users
        "uidB").map User.role = some Role.admin := by decide

/-- C8 amended: besides the four lifecycle operations, the admin bootstrap
paths (`createInitialAdmin` and the create-admin script's
`createOrUpdateMongoUser`) also write `role`/`roleStatus`/`requestedRole` —
but only ever to the fixed values `(admin, approved, none)`; `register`
creates users only with the constant owner role whatever the caller sent,
`requestRoleUpgrade` and `reject` never change any user's role or roleStatus,
and `approve` sets a role only to the `requestedRole` of a stored pending
RoleRequest — so `User.role` is never assigned directly from caller-supplied
input. -/
theorem role_writers_amended :
    (∀ st : AppState, ∀ fuid email nU,
       ∀ u' ∈ (createOrUpdateMongoUser st fuid email nU).users,
         u' ∈ st.users ∨
         (u'.role = Role.admin ∧ u'.roleStatus = RoleStatus.approved ∧
          u'.requestedRole = none)) ∧
    (∀ st : AppState, ∀ fuid email nU ok,
       ∀ u' ∈ (createInitialAdmin st fuid email nU ok).2.users,
         u' ∈ st.users ∨
         (u'.role = Role.admin ∧ u'.roleStatus = RoleStatus.approved ∧
          u'.requestedRole = none)) ∧
    (∀ st : AppState, ∀ uid email reqRole nU nR ok,
       ∀ u' ∈ (register st uid email reqRole nU nR ok).2.users,
         u' ∈ st.users ∨ u'.role = Role.owner) ∧
    (∀ st : AppState, ∀ du reqRole ln lc nR,
       ∀ u' ∈ (requestRoleUpgrade st du reqRole ln lc nR).2.users,
         ∃ x ∈ st.users, u'.role = x.role ∧ u'.roleStatus = x.roleStatus) ∧
    (∀ st : AppState, ∀ au rid reason now,
       ∀ u' ∈ (rejectRoleRequest st au rid reason now).2.users,
         ∃ x ∈ st.users, u'.role = x.role ∧ u'.roleStatus = x.roleStatus) ∧
    (∀ st : AppState, ∀ au rid now ok,
       ∀ u' ∈ (approveRoleRequest st au rid now ok).2.users,
         u' ∈ st.users ∨
         ∃ rr, findReqById st.roleRequests rid = some rr ∧
           rr.status = RoleStatus.pending ∧ u'.role = rr.requestedRole) := by
  refine ⟨?_, ?_, ?_, ?_, ?_, ?_⟩
  · exact createOrUpdateMongoUser_users_cases
  · exact createInitialAdmin_users_cases
  · intro st uid email reqRole nU nR ok u' hu'
    rcases register_users_cases st uid email reqRole nU nR ok u' hu' with hx | hx
    · exact Or.inl hx
    · exact Or.inr hx.1
  · exact requestUpgrade_users_cases
  · exact reject_users_cases
  · intro st au rid now ok u' hu'
    rcases approve_users_cases st au rid now ok u' hu' with hx | hx
    · exact Or.inl hx
    · obtain ⟨rr, h1, h2, h3, _⟩ := hx
      exact Or.inr ⟨rr, h1, h2, h3⟩

/-- C8 witness: the amended statement instantiated on the script's promotion
of Bob — the resulting record carries exactly the fixed admin values. -/
theorem role_writers_amended_witness :
    (⟨2, "uidB", "bob@x", Role.admin, RoleStatus.approved, none⟩ : User) ∈
        baseState.users ∨
    ((⟨2, "uidB", "bob@x", Role.admin, RoleStatus.approved, none⟩ : User).role =
        Role.admin ∧
     (⟨2, "uidB", "bob@x", Role.admin, RoleStatus.approved, none⟩ : User).roleStatus =
        RoleStatus.approved ∧
     (⟨2, "uidB", "bob@x", Role.admin, RoleStatus.approved, none⟩ : User).requestedRole =
        none) :=
  role_writers_amended.1 baseState "uidB" "bob@x" 7
    ⟨2, "uidB", "bob@x", Role.admin, RoleStatus.approved, none⟩ (by decide)

end PetCare
